import Mathlib

/-!
Shallow embedding of
`paddle/fluid/framework/details/scope_buffered_ssa_graph_executor.cc`
(PaddlePaddle's `ScopeBufferedSSAGraphExecutor`).

Modelling decisions:
* A `memory::Allocation *` is a `Nat` identifier; a possibly-null pointer is
  `Option Nat` (`none` = `nullptr`).  Allocation sizes are an external map
  `sz : Nat → Nat`.
* A `Variable` is its content: one of the three tensor-like payloads the code
  inspects (`LoDTensor`, `SelectedRows`, `LoDTensorArray`), the uninitialized
  state (`holder_ == nullptr`), or some other payload type the code ignores.
* A `Scope` is a list of named variables plus a list of child scopes.
  `Scope::Var` is create-if-absent, `Scope::FindVar` is local lookup
  (the code only uses local names via `LocalVarNames`), `EraseVarsExcept`
  keeps exactly the preserved variables, `Variable::Clear` resets the
  content to uninitialized.  The C++ identifies preserved variables by
  `Variable *`; since a scope owns one stable variable per name, we identify
  them by name.
* The executor's mutable state is an explicit record; `Run`,
  `DropLocalExeScopes`, `InitVariables`, `PrepareLocalExeScopes` are state
  transformers.  The underlying engine is opaque: its outcome for a step is
  an input `Except ε α` to `run`.
* Temporal claims are stated over explicit event traces emitted alongside
  the state transition, mirroring the statement order of the C++.
-/

/-- A variable's content: the tagged union held by `framework::Variable`.
`lod`/`selectedRows` carry `Holder().get()` (possibly null);
`lodTensorArray` carries the holder of each element tensor. -/
inductive VarContent where
  | lod (holder : Option Nat)
  | selectedRows (holder : Option Nat)
  | lodTensorArray (holders : List (Option Nat))
  | uninit
  | other
deriving DecidableEq, Repr

/-- The declared slot type of a variable (`proto::VarType`), restricted to
the cases relevant to this translation unit. -/
inductive VarType where
  | lodTensor
  | selectedRows
  | lodTensorArray
  | otherType
deriving DecidableEq, Repr

/-- The freshly-initialized (empty, typed) content produced by
`InitializeVariable(var, type)` on an empty variable: `GetMutable<T>()`
default-constructs a `T` with no backing allocation. -/
def emptyOfType : VarType → VarContent
  | .lodTensor => .lod none
  | .selectedRows => .selectedRows none
  | .lodTensorArray => .lodTensorArray []
  | .otherType => .other

/-- `InitializeVariable(var, type)`: `GetMutable<T>()` constructs an empty
`T` when the variable is uninitialized and otherwise keeps the existing
content (the C++ enforces that the existing content has type `T`). -/
def initializeVariable (c : VarContent) (t : VarType) : VarContent :=
  if c = .uninit then emptyOfType t else c

/-- `VariableInfo`: name, slot type, and the `persistable_` flag. -/
structure VariableInfo where
  name : String
  type : VarType
  persistable : Bool
deriving DecidableEq, Repr

/-- An execution context (`framework::Scope`): named local variables plus
owned child scopes. -/
inductive Scope where
  | mk (vars : List (String × VarContent)) (kids : List Scope)

/-- The local variable list of a scope. -/
def Scope.varsOf : Scope → List (String × VarContent)
  | .mk vs _ => vs

/-- The child scopes of a scope. -/
def Scope.kidsOf : Scope → List Scope
  | .mk _ ks => ks

/-- `Scope::FindVar` restricted to local names (the code pairs it with
`LocalVarNames`): the first variable bound to the name, if any. -/
def Scope.findVar (s : Scope) (n : String) : Option VarContent :=
  s.varsOf.lookup n

/-- `Scope::Var(name)`: create-if-absent; an existing binding is returned
unchanged, otherwise a fresh uninitialized variable is added. -/
def Scope.ensureVar (s : Scope) (n : String) : Scope :=
  match s.findVar n with
  | some _ => s
  | none => .mk (s.varsOf ++ [(n, .uninit)]) s.kidsOf

/-- Insert a fresh variable with the given content (models
`InitializeVariable(scope->Var(name), type)` on a name known absent). -/
def Scope.insertVar (s : Scope) (n : String) (c : VarContent) : Scope :=
  .mk (s.varsOf ++ [(n, c)]) s.kidsOf

/-- `Scope::EraseVarsExcept(preserved)`: erase every local variable not in
the preserved set. -/
def Scope.eraseVarsExcept (s : Scope) (keep : List String) : Scope :=
  .mk (s.varsOf.filter (fun p => keep.contains p.1)) s.kidsOf

/-- `Scope::DropKids()`: destroy all child scopes. -/
def Scope.dropKids (s : Scope) : Scope :=
  .mk s.varsOf []

/-- `preserve_var->Clear()` applied to every preserved variable: each listed
name's content is reset to the uninitialized state. -/
def Scope.clearVars (s : Scope) (names : List String) : Scope :=
  .mk (s.varsOf.map (fun p => if names.contains p.1 then (p.1, .uninit) else p))
    s.kidsOf

/-- `scope->Var(name)->GetMutable<LoDTensor>()`: create the variable if
absent, and give an uninitialized variable an empty dense (`LoDTensor`)
content; an already-typed variable is kept (the C++ enforces its type). -/
def Scope.varGetMutableLod (s : Scope) (n : String) : Scope :=
  match s.findVar n with
  | none => s.insertVar n (.lod none)
  | some .uninit =>
      .mk (s.varsOf.map (fun p => if p.1 = n then (p.1, .lod none) else p))
        s.kidsOf
  | some _ => s

/-- `CollectUniqueAllocations(var, set)`: the allocation pointers a single
variable contributes (dense holder, sparse value holder, or each array
element's holder); other and uninitialized variables contribute none. -/
def collectVarAllocs : VarContent → List (Option Nat)
  | .lod h => [h]
  | .selectedRows h => [h]
  | .lodTensorArray hs => hs
  | .uninit => []
  | .other => []

mutual

/-- `CollectUniqueAllocations(scope, set)`: allocations of all local
variables followed by those of all child scopes (the C++ inserts into an
unordered set; we collect the insertion list and deduplicate at summation).
-/
def collectScopeAllocs : Scope → List (Option Nat)
  | .mk vars kids =>
      (vars.map (fun p => collectVarAllocs p.2)).flatten ++
        collectScopesAllocs kids

/-- Allocations contributed by a list of child scopes, in order. -/
def collectScopesAllocs : List Scope → List (Option Nat)
  | [] => []
  | s :: ss => collectScopeAllocs s ++ collectScopesAllocs ss

end

/-- Size of one collected pointer: null pointers are skipped
(`if (allocation)`), otherwise `allocation->size()`. -/
def allocPtrSize (sz : Nat → Nat) : Option Nat → Nat
  | none => 0
  | some a => sz a

/-- `GetScopeVarMemorySize(scope)`: deduplicate the collected allocation
pointers (the unordered set) and sum the sizes of the non-null ones. -/
def GetScopeVarMemorySize (sz : Nat → Nat) (s : Scope) : Nat :=
  (((collectScopeAllocs s).dedup).map (allocPtrSize sz)).sum

/-- The distinct non-null allocation identifiers reachable from a scope:
the specification-level "set of distinct underlying storage allocations". -/
def scopeAllocIds (s : Scope) : Finset Nat :=
  ((collectScopeAllocs s).filterMap id).toFinset

/-- One fused-initialization sub-program (`ProgramDesc`): a list of blocks,
each a list of operator descriptors (modelled as opaque identifiers);
`Block(0)` is the primary block. -/
structure ProgramDesc where
  blocks : List (List Nat)
deriving DecidableEq, Repr

/-- The primary block's operators: `program_desc.Block(0).AllOps()`. -/
def ProgramDesc.block0Ops (pd : ProgramDesc) : List Nat :=
  pd.blocks.headD []

/-- The graph metadata `InitVariables` consults: the optional
`kProgramDescs` attribute (fused-initialization sub-programs) and the
`kFusedVars` attribute (fused-variable slot names, read only when the
former is present). -/
structure GraphAttrs where
  programDescs : Option (List ProgramDesc)
  fusedVars : List String
deriving DecidableEq, Repr

/-- The executor's state: the construction-time configuration
(`strategy_.num_iteration_per_drop_scope_`, `places_`, `var_infos_`, the
graph metadata), the per-worker context pairs (`local_scopes_` persistent,
`local_exec_scopes_` transient), the per-worker preserved sets and
`(variable, type)` initialization records, and the reclamation counter.
`dropCount` is ghost instrumentation (not in the source) counting how many
times `DropLocalExeScopes` has run. -/
structure ExecutorState where
  numIterationPerDropScope : Nat
  places : List Nat
  varInfos : List VariableInfo
  graph : GraphAttrs
  localScopes : List Scope
  localExecScopes : List Scope
  preserveVars : List (List String)
  tmpVarInfos : List (List (String × VarType))
  dropScopeCounter : Nat
  dropCount : Nat

/-- Phase 1 of `InitVariables`: for every worker, re-run
`InitializeVariable` on each recorded `(variable, type)` pair (lines
126-130).  The recorded `Variable *` handles are resolved by name. -/
def initTmpVars (sc : Scope) (tv : List (String × VarType)) : Scope :=
  tv.foldl
    (fun s p =>
      Scope.mk
        (s.varsOf.map
          (fun q => if q.1 = p.1 then (q.1, initializeVariable q.2 p.2) else q))
        s.kidsOf)
    sc

/-- Phase 2 of `InitVariables` (lines 137-143), per worker: for every
fused-variable name, `local_exec_scopes_[i]->Var(name)->GetMutable<LoDTensor>()`. -/
def createFusedVars (sc : Scope) (fused : List String) : Scope :=
  fused.foldl (fun s n => s.varGetMutableLod n) sc

/-- The transient scopes after `InitVariables` (the operator executions of
lines 145-152 mutate scopes only through the opaque operator runtime and are
recorded in the trace, not the state). -/
def initVariablesScopes (s : ExecutorState) : List Scope :=
  let scopes1 := List.zipWith initTmpVars s.localExecScopes s.tmpVarInfos
  match s.graph.programDescs with
  | none => scopes1
  | some _ => scopes1.map (fun sc => createFusedVars sc s.graph.fusedVars)

/-- `InitVariables` as a state transformer: only the transient contexts
change. -/
def initVariables (s : ExecutorState) : ExecutorState :=
  { s with localExecScopes := initVariablesScopes s }

/-- Events of the fused-initialization part of `InitVariables`:
creation of a fused-variable slot in a worker's transient context, and
execution of one operator in one worker's context. -/
inductive InitEvent where
  | createFused (worker : Nat) (name : String)
  | runOp (worker : Nat) (op : Nat)
deriving DecidableEq, Repr

/-- The fused-initialization event trace of `InitVariables` (lines
133-153): nothing when `kProgramDescs` is absent; otherwise every worker
creates every fused slot, then for each sub-program, for each operator of
its primary block, for each worker, the operator runs once. -/
def initVariablesFusedTrace (s : ExecutorState) : List InitEvent :=
  match s.graph.programDescs with
  | none => []
  | some pds =>
      (List.range s.localExecScopes.length).flatMap
        (fun i => s.graph.fusedVars.map (fun n => InitEvent.createFused i n)) ++
      pds.flatMap
        (fun pd => pd.block0Ops.flatMap
          (fun op => (List.range s.localExecScopes.length).map
            (fun i => InitEvent.runOp i op)))

/-- The per-worker scope update of `DropLocalExeScopes` (lines 163-168):
erase every variable outside the preserved set, drop child scopes, then
clear each preserved variable. -/
def dropWorkerScope (sc : Scope) (pv : List String) : Scope :=
  ((sc.eraseVarsExcept pv).dropKids).clearVars pv

/-- `DropLocalExeScopes`: reset the counter, then (after synchronizing
every place) rebuild each transient scope; `dropCount` is the ghost
invocation counter. -/
def dropLocalExeScopes (s : ExecutorState) : ExecutorState :=
  { s with
    dropScopeCounter := 0
    dropCount := s.dropCount + 1
    localExecScopes :=
      List.zipWith dropWorkerScope s.localExecScopes s.preserveVars }

/-- Events of `DropLocalExeScopes`, in statement order: one device
synchronization per place (lines 159-161), then per worker the erasure,
kid-drop and preserved-variable clears (lines 163-168). -/
inductive DropEvent where
  | syncDevice (place : Nat)
  | eraseVars (worker : Nat)
  | dropKidScopes (worker : Nat)
  | clearVar (worker : Nat) (name : String)
deriving DecidableEq, Repr

/-- Whether a drop event is a device synchronization. -/
def DropEvent.isSync : DropEvent → Bool
  | .syncDevice _ => true
  | _ => false

/-- Whether a drop event erases or clears transient storage. -/
def DropEvent.isReclaim : DropEvent → Bool
  | .syncDevice _ => false
  | _ => true

/-- The event trace of `DropLocalExeScopes`: all synchronizations first,
then the per-worker erasures and clears. -/
def dropTrace (s : ExecutorState) : List DropEvent :=
  s.places.map DropEvent.syncDevice ++
    (List.range s.localExecScopes.length).flatMap
      (fun i =>
        [DropEvent.eraseVars i, DropEvent.dropKidScopes i] ++
          (s.preserveVars.getD i []).map (DropEvent.clearVar i))

/-- `Run` (lines 82-123) as a state transformer.  The underlying engine's
outcome for this step is the opaque input `r`; the try/catch captures a
failure into `eptr` and the function ends by re-raising it or returning the
fetched data, which is exactly the returned `Except`.  The state updates —
conditional `InitVariables`, the counter increment, and the conditional
`DropLocalExeScopes` — happen identically in both outcomes. -/
def run {ε α : Type} (s : ExecutorState) (r : Except ε α) :
    Except ε α × ExecutorState :=
  let s1 := if s.dropScopeCounter = 0 then initVariables s else s
  let s2 := { s1 with dropScopeCounter := s1.dropScopeCounter + 1 }
  let s3 :=
    if s2.dropScopeCounter = s2.numIterationPerDropScope then
      dropLocalExeScopes s2
    else s2
  (r, s3)

/-- Events of one `Run` call, in statement order. -/
inductive RunEvent where
  | initLocalVars
  | engineRun
  | incrCounter
  | dropScopes
  | reraiseError
  | returnOutputs
deriving DecidableEq, Repr

/-- The event trace of `Run`: conditional initialization, the engine call,
the unconditional counter increment, the conditional reclamation, and
finally the re-raise (when the engine failed) or the return. -/
def runTrace (s : ExecutorState) (failed : Bool) : List RunEvent :=
  (if s.dropScopeCounter = 0 then [RunEvent.initLocalVars] else []) ++
  [RunEvent.engineRun] ++
  [RunEvent.incrCounter] ++
  (if s.dropScopeCounter + 1 = s.numIterationPerDropScope then
    [RunEvent.dropScopes]
  else []) ++
  [if failed then RunEvent.reraiseError else RunEvent.returnOutputs]

/-- The state after one `Run` call (the next state is independent of the
engine's outcome, see `run`). -/
def stepState (s : ExecutorState) : ExecutorState :=
  (@run Nat Nat s (Except.ok 0)).2

/-- The state after a sequence of `Run` calls whose engine outcomes are the
given list (`true` = the engine failed that step). -/
def runMany (s : ExecutorState) : List Bool → ExecutorState
  | [] => s
  | failed :: rest =>
      runMany (run s (if failed then Except.error 0 else Except.ok 0)).2 rest

/-- The per-worker accumulator built by `PrepareLocalExeScopes`: the
persistent scope, the transient scope, the preserved set and the recorded
`(variable, type)` pairs. -/
structure WorkerPrep where
  scope : Scope
  localScope : Scope
  preserve : List String
  tmpInfos : List (String × VarType)

/-- One iteration of the inner loop of `PrepareLocalExeScopes` (lines
183-198): a persistable variable already present in the persistent scope is
skipped; a persistable absent one is created there and type-initialized;
a non-persistable one is created in the transient scope, added to the
preserved set (a set: by-name deduplicated) and recorded with its type. -/
def classifyStep (w : WorkerPrep) (info : VariableInfo) : WorkerPrep :=
  if info.persistable then
    match w.scope.findVar info.name with
    | some _ => w
    | none =>
        { w with scope := w.scope.insertVar info.name (emptyOfType info.type) }
  else
    { w with
      localScope := w.localScope.ensureVar info.name
      preserve :=
        if w.preserve.contains info.name then w.preserve
        else w.preserve ++ [info.name]
      tmpInfos := w.tmpInfos ++ [(info.name, info.type)] }

/-- The whole inner loop of `PrepareLocalExeScopes` for one worker,
starting from empty preserved set and records. -/
def prepareWorker (infos : List VariableInfo) (sc lsc : Scope) : WorkerPrep :=
  infos.foldl classifyStep ⟨sc, lsc, [], []⟩

/-- `PrepareLocalExeScopes` (lines 173-200): process every worker (the C++
iterates workers in reverse index order; workers touch disjoint state, so
the per-worker results are order-independent). -/
def prepareLocalExeScopes (s : ExecutorState) : ExecutorState :=
  let results :=
    List.zipWith (fun sc lsc => prepareWorker s.varInfos sc lsc)
      s.localScopes s.localExecScopes
  { s with
    localScopes := results.map (fun w => w.scope)
    localExecScopes := results.map (fun w => w.localScope)
    preserveVars := results.map (fun w => w.preserve)
    tmpVarInfos := results.map (fun w => w.tmpInfos) }

/-- The operator a fused-initialization event makes worker `i` execute,
if any: extracts worker `i`'s executed-operator sequence from the trace. -/
def workerOpOf (i : Nat) : InitEvent → Option Nat
  | InitEvent.runOp j op => if j = i then some op else none
  | InitEvent.createFused _ _ => none

/-- A small concrete scope used to instantiate the theorems. -/
def sampleScope : Scope :=
  Scope.mk [("w", VarContent.lod (some 0))] []

/-- A small concrete transient scope with one preserved variable `t` and
one engine-created temporary `u`. -/
def sampleExecScope : Scope :=
  Scope.mk [("t", VarContent.lod (some 1)), ("u", VarContent.selectedRows (some 2))]
    [Scope.mk [("k", VarContent.lod (some 3))] []]

/-- A small concrete executor state: one worker, steps-per-reclaim 2. -/
def sampleState : ExecutorState where
  numIterationPerDropScope := 2
  places := [0, 1]
  varInfos :=
    [⟨"w", VarType.lodTensor, true⟩, ⟨"t", VarType.lodTensor, false⟩]
  graph := ⟨some [⟨[[7, 8]]⟩], ["f"]⟩
  localScopes := [sampleScope]
  localExecScopes := [sampleExecScope]
  preserveVars := [["t"]]
  tmpVarInfos := [[("t", VarType.lodTensor)]]
  dropScopeCounter := 0
  dropCount := 0

lemma run_fst {ε α : Type} (s : ExecutorState) (r : Except ε α) :
    (run s r).1 = r := rfl

lemma run_snd_eq_stepState {ε α : Type} (s : ExecutorState) (r : Except ε α) :
    (run s r).2 = stepState s := rfl

lemma initVariables_counter (s : ExecutorState) :
    (initVariables s).dropScopeCounter = s.dropScopeCounter := rfl

lemma initVariables_numIteration (s : ExecutorState) :
    (initVariables s).numIterationPerDropScope = s.numIterationPerDropScope :=
  rfl

lemma initVariables_localScopes (s : ExecutorState) :
    (initVariables s).localScopes = s.localScopes := rfl

lemma initVariables_preserveVars (s : ExecutorState) :
    (initVariables s).preserveVars = s.preserveVars := rfl

lemma initVariables_dropCount (s : ExecutorState) :
    (initVariables s).dropCount = s.dropCount := rfl

lemma dropLocalExeScopes_counter (s : ExecutorState) :
    (dropLocalExeScopes s).dropScopeCounter = 0 := rfl

lemma dropLocalExeScopes_dropCount (s : ExecutorState) :
    (dropLocalExeScopes s).dropCount = s.dropCount + 1 := rfl

lemma dropLocalExeScopes_localScopes (s : ExecutorState) :
    (dropLocalExeScopes s).localScopes = s.localScopes := rfl

lemma dropLocalExeScopes_preserveVars (s : ExecutorState) :
    (dropLocalExeScopes s).preserveVars = s.preserveVars := rfl

lemma dropLocalExeScopes_numIteration (s : ExecutorState) :
    (dropLocalExeScopes s).numIterationPerDropScope =
      s.numIterationPerDropScope := rfl

lemma stepState_counter (s : ExecutorState) :
    (stepState s).dropScopeCounter =
      if s.dropScopeCounter + 1 = s.numIterationPerDropScope then 0
      else s.dropScopeCounter + 1 := by
  unfold stepState run
  by_cases h0 : s.dropScopeCounter = 0 <;>
    by_cases hK : s.dropScopeCounter + 1 = s.numIterationPerDropScope <;>
      simp_all [initVariables, dropLocalExeScopes]

lemma stepState_dropCount (s : ExecutorState) :
    (stepState s).dropCount =
      if s.dropScopeCounter + 1 = s.numIterationPerDropScope then
        s.dropCount + 1
      else s.dropCount := by
  unfold stepState run
  by_cases h0 : s.dropScopeCounter = 0 <;>
    by_cases hK : s.dropScopeCounter + 1 = s.numIterationPerDropScope <;>
      simp_all [initVariables, dropLocalExeScopes]

lemma stepState_numIteration (s : ExecutorState) :
    (stepState s).numIterationPerDropScope = s.numIterationPerDropScope := by
  unfold stepState run
  by_cases h0 : s.dropScopeCounter = 0 <;>
    by_cases hK : s.dropScopeCounter + 1 = s.numIterationPerDropScope <;>
      simp_all [initVariables, dropLocalExeScopes]

lemma stepState_localScopes (s : ExecutorState) :
    (stepState s).localScopes = s.localScopes := by
  unfold stepState run
  by_cases h0 : s.dropScopeCounter = 0 <;>
    by_cases hK : s.dropScopeCounter + 1 = s.numIterationPerDropScope <;>
      simp_all [initVariables, dropLocalExeScopes]

lemma stepState_preserveVars (s : ExecutorState) :
    (stepState s).preserveVars = s.preserveVars := by
  unfold stepState run
  by_cases h0 : s.dropScopeCounter = 0 <;>
    by_cases hK : s.dropScopeCounter + 1 = s.numIterationPerDropScope <;>
      simp_all [initVariables, dropLocalExeScopes]

lemma runMany_cons (s : ExecutorState) (b : Bool) (rest : List Bool) :
    runMany s (b :: rest) = runMany (stepState s) rest := rfl

lemma runMany_numIteration : ∀ (rs : List Bool) (s : ExecutorState),
    (runMany s rs).numIterationPerDropScope = s.numIterationPerDropScope := by
  intro rs
  induction rs with
  | nil => intro s; rfl
  | cons b rest ih =>
      intro s
      rw [runMany_cons, ih, stepState_numIteration]

lemma runMany_localScopes : ∀ (rs : List Bool) (s : ExecutorState),
    (runMany s rs).localScopes = s.localScopes := by
  intro rs
  induction rs with
  | nil => intro s; rfl
  | cons b rest ih =>
      intro s
      rw [runMany_cons, ih, stepState_localScopes]

lemma runMany_counter_lt : ∀ (rs : List Bool) (s : ExecutorState),
    s.dropScopeCounter < s.numIterationPerDropScope →
    (runMany s rs).dropScopeCounter < s.numIterationPerDropScope := by
  intro rs
  induction rs with
  | nil => intro s h; exact h
  | cons b rest ih =>
      intro s h
      rw [runMany_cons]
      have h' : (stepState s).dropScopeCounter <
          (stepState s).numIterationPerDropScope := by
        rw [stepState_numIteration, stepState_counter]
        split_ifs with hK <;> omega
      have hres := ih (stepState s) h'
      rwa [stepState_numIteration] at hres

lemma runMany_fires_once : ∀ (rs : List Bool) (s : ExecutorState),
    rs ≠ [] →
    s.dropScopeCounter + rs.length = s.numIterationPerDropScope →
    (runMany s rs).dropScopeCounter = 0 ∧
    (runMany s rs).dropCount = s.dropCount + 1 := by
  intro rs
  induction rs with
  | nil => intro s h _; exact absurd rfl h
  | cons b rest ih =>
      intro s _ hsum
      rw [runMany_cons]
      cases rest with
      | nil =>
          have hK : s.dropScopeCounter + 1 = s.numIterationPerDropScope := by
            simpa using hsum
          constructor
          · show (stepState s).dropScopeCounter = 0
            rw [stepState_counter, if_pos hK]
          · show (stepState s).dropCount = s.dropCount + 1
            rw [stepState_dropCount, if_pos hK]
      | cons b' rest' =>
          have hne : s.dropScopeCounter + 1 ≠ s.numIterationPerDropScope := by
            simp only [List.length_cons] at hsum; omega
          have hsum' : (stepState s).dropScopeCounter +
              (b' :: rest').length = (stepState s).numIterationPerDropScope := by
            rw [stepState_counter, stepState_numIteration, if_neg hne]
            simp only [List.length_cons] at hsum ⊢; omega
          have hres := ih (stepState s) (by simp) hsum'
          refine ⟨hres.1, ?_⟩
          rw [hres.2, stepState_dropCount, if_neg hne]

lemma mem_initLocalVars_runTrace (t : ExecutorState) (f : Bool) :
    RunEvent.initLocalVars ∈ runTrace t f ↔ t.dropScopeCounter = 0 := by
  by_cases h0 : t.dropScopeCounter = 0 <;>
    by_cases hK : t.dropScopeCounter + 1 = t.numIterationPerDropScope <;>
      cases f <;> simp [runTrace, h0, hK]

/-- C1: when the underlying engine's run fails, `Run` still performs all
per-step bookkeeping (the counter increment and, when the counter reaches
the threshold, the reclamation) exactly as on success — the post-state is
identical in both outcomes — and only afterwards re-raises the captured
failure unchanged: the failure is the returned value, the re-raise is the
last event of the step's trace, and the increment (and the reclamation,
exactly when scheduled) precede it. -/
theorem run_bookkeeps_then_reraises {ε α : Type} (s : ExecutorState)
    (e : ε) (v : α) :
    (@run ε α s (Except.error e)).1 = Except.error e ∧
    (@run ε α s (Except.ok v)).1 = Except.ok v ∧
    (@run ε α s (Except.error e)).2 = (@run ε α s (Except.ok v)).2 ∧
    (@run ε α s (Except.error e)).2.dropScopeCounter =
      (if s.dropScopeCounter + 1 = s.numIterationPerDropScope then 0
       else s.dropScopeCounter + 1) ∧
    (runTrace s true).getLast? = some RunEvent.reraiseError ∧
    RunEvent.incrCounter ∈ (runTrace s true).dropLast ∧
    (RunEvent.dropScopes ∈ (runTrace s true).dropLast ↔
      s.dropScopeCounter + 1 = s.numIterationPerDropScope) := by
  refine ⟨rfl, rfl, rfl, ?_, ?_, ?_, ?_⟩
  · rw [run_snd_eq_stepState]
    exact stepState_counter s
  · by_cases h0 : s.dropScopeCounter = 0 <;>
      by_cases hK : s.dropScopeCounter + 1 = s.numIterationPerDropScope <;>
        simp_all [runTrace]
  · by_cases h0 : s.dropScopeCounter = 0 <;>
      by_cases hK : s.dropScopeCounter + 1 = s.numIterationPerDropScope <;>
        simp_all [runTrace]
  · by_cases h0 : s.dropScopeCounter = 0 <;>
      by_cases hK : s.dropScopeCounter + 1 = s.numIterationPerDropScope <;>
        simp_all [runTrace]

/-- C1 witness: the theorem instantiated at the sample state. -/
theorem run_bookkeeps_then_reraises_witness :
    (@run String Nat sampleState (Except.error "boom")).1 =
      Except.error "boom" ∧
    (runTrace sampleState true).getLast? = some RunEvent.reraiseError :=
  ⟨(run_bookkeeps_then_reraises sampleState "boom" (0 : Nat)).1,
   (run_bookkeeps_then_reraises sampleState "boom" (0 : Nat)).2.2.2.2.1⟩

/-- C7: `InitVariables` is invoked if and only if the reclamation counter
is 0 at the start of the `Run` call; in particular it is invoked on a call
starting at counter 0 (the very first step, and the first step after each
reclamation, whose post-state counter is 0), and on no other call. -/
theorem initVariables_iff_counter_zero (s : ExecutorState) (failed : Bool) :
    (RunEvent.initLocalVars ∈ runTrace s failed ↔ s.dropScopeCounter = 0) ∧
    (s.dropScopeCounter + 1 = s.numIterationPerDropScope →
      (stepState s).dropScopeCounter = 0 ∧
      RunEvent.initLocalVars ∈ runTrace (stepState s) failed) ∧
    ((stepState s).dropScopeCounter ≠ 0 →
      RunEvent.initLocalVars ∉ runTrace (stepState s) failed) := by
  refine ⟨mem_initLocalVars_runTrace s failed, ?_, ?_⟩
  · intro hK
    have hc : (stepState s).dropScopeCounter = 0 := by
      rw [stepState_counter, if_pos hK]
    exact ⟨hc, (mem_initLocalVars_runTrace _ _).2 hc⟩
  · intro hne hmem
    exact hne ((mem_initLocalVars_runTrace _ _).1 hmem)

/-- C7 witness: the theorem instantiated at the sample state (counter 0,
threshold 2). -/
theorem initVariables_iff_counter_zero_witness :
    (RunEvent.initLocalVars ∈ runTrace sampleState true ↔
      sampleState.dropScopeCounter = 0) ∧
    sampleState.dropScopeCounter = 0 :=
  ⟨(initVariables_iff_counter_zero sampleState true).1, by decide⟩

/-- C10: with threshold K ≥ 1, a `Run` call starting below K ends below K
(reaching K inside the step immediately resets the counter to 0), so the
counter never remains ≥ K between steps; this holds along any sequence of
successful or failed steps. -/
theorem counter_stays_below_threshold (s : ExecutorState) (K : Nat)
    (hK : s.numIterationPerDropScope = K) (hK1 : 1 ≤ K)
    (hlt : s.dropScopeCounter < K) :
    (∀ (ε α : Type) (r : Except ε α), (run s r).2.dropScopeCounter < K) ∧
    (s.dropScopeCounter + 1 = K →
      ∀ (ε α : Type) (r : Except ε α), (run s r).2.dropScopeCounter = 0) ∧
    (∀ rs : List Bool, (runMany s rs).dropScopeCounter < K) := by
  refine ⟨?_, ?_, ?_⟩
  · intro ε α r
    rw [run_snd_eq_stepState, stepState_counter, hK]
    split_ifs <;> omega
  · intro hfire ε α r
    rw [run_snd_eq_stepState, stepState_counter, hK, if_pos hfire]
  · intro rs
    have := runMany_counter_lt rs s (by rw [hK]; exact hlt)
    rwa [hK] at this

/-- C10 witness: the theorem instantiated at the sample state (counter 0,
threshold 2, a three-step mixed success/failure sequence). -/
theorem counter_stays_below_threshold_witness :
    sampleState.numIterationPerDropScope = 2 ∧ 1 ≤ 2 ∧
    sampleState.dropScopeCounter < 2 ∧
    (runMany sampleState [true, false, true]).dropScopeCounter < 2 :=
  ⟨rfl, by decide, by decide,
   (counter_stays_below_threshold sampleState 2 rfl (by decide)
     (by decide)).2.2 [true, false, true]⟩

/-- C2: for every threshold K ≥ 1 and worker count W ≥ 1, starting at
counter 0, after exactly K `Run` calls (each successful or failed) the
Reclaimer has run exactly once and the counter is back to 0; moreover each
step increments the counter exactly once and reclamation fires exactly when
the incremented counter equals K. -/
theorem reclaim_exactly_once_per_K_steps (s : ExecutorState) (K W : Nat)
    (hK : s.numIterationPerDropScope = K) (hK1 : 1 ≤ K)
    (hW : s.localExecScopes.length = W) (hW1 : 1 ≤ W)
    (h0 : s.dropScopeCounter = 0)
    (rs : List Bool) (hlen : rs.length = K) :
    (runMany s rs).dropScopeCounter = 0 ∧
    (runMany s rs).dropCount = s.dropCount + 1 ∧
    (∀ t : ExecutorState, t.numIterationPerDropScope = K →
      (stepState t).dropScopeCounter =
        (if t.dropScopeCounter + 1 = K then 0 else t.dropScopeCounter + 1) ∧
      (stepState t).dropCount =
        t.dropCount + (if t.dropScopeCounter + 1 = K then 1 else 0)) := by
  have hne : rs ≠ [] := by
    intro h
    rw [h] at hlen
    simp at hlen
    omega
  have hsum : s.dropScopeCounter + rs.length = s.numIterationPerDropScope := by
    rw [h0, hlen, hK]
    omega
  obtain ⟨hc, hd⟩ := runMany_fires_once rs s hne hsum
  refine ⟨hc, hd, ?_⟩
  intro t ht
  rw [stepState_counter, stepState_dropCount, ht]
  split_ifs <;> simp

/-- C2 witness: K = 2, W = 1, two steps (one success then one failure):
the Reclaimer fired once and the counter is back to 0. -/
theorem reclaim_exactly_once_per_K_steps_witness :
    sampleState.numIterationPerDropScope = 2 ∧
    sampleState.localExecScopes.length = 1 ∧
    sampleState.dropScopeCounter = 0 ∧
    (runMany sampleState [false, true]).dropScopeCounter = 0 ∧
    (runMany sampleState [false, true]).dropCount =
      sampleState.dropCount + 1 :=
  ⟨rfl, by decide, by decide,
   (reclaim_exactly_once_per_K_steps sampleState 2 1 rfl (by decide)
     (by decide) (by decide) rfl [false, true] rfl).1,
   (reclaim_exactly_once_per_K_steps sampleState 2 1 rfl (by decide)
     (by decide) (by decide) rfl [false, true] rfl).2.1⟩

/-- C9: no operation of this core erases a variable from a persistent
context: `Run` and `DropLocalExeScopes` leave the persistent scopes
entirely unchanged, so along any sequence of calls every variable present
in a worker's persistent context stays present with the same content. -/
theorem persistent_scope_never_erased (s : ExecutorState) :
    (∀ (ε α : Type) (r : Except ε α), (run s r).2.localScopes = s.localScopes) ∧
    (dropLocalExeScopes s).localScopes = s.localScopes ∧
    (∀ rs : List Bool, (runMany s rs).localScopes = s.localScopes) ∧
    (∀ (rs : List Bool) (i : Nat) (n : String),
      ((runMany s rs).localScopes.getD i (Scope.mk [] [])).findVar n =
        (s.localScopes.getD i (Scope.mk [] [])).findVar n) := by
  refine ⟨?_, dropLocalExeScopes_localScopes s, ?_, ?_⟩
  · intro ε α r
    rw [run_snd_eq_stepState, stepState_localScopes]
  · intro rs
    exact runMany_localScopes rs s
  · intro rs i n
    rw [runMany_localScopes rs s]

/-- C9 witness: after a mixed three-step sequence the sample state's
persistent scope still holds `w` with its original content. -/
theorem persistent_scope_never_erased_witness :
    ((runMany sampleState [true, true, false]).localScopes.getD 0
        (Scope.mk [] [])).findVar "w" =
      (sampleState.localScopes.getD 0 (Scope.mk [] [])).findVar "w" :=
  (persistent_scope_never_erased sampleState).2.2.2 [true, true, false] 0 "w"

lemma dropTrace_eq (s : ExecutorState) :
    dropTrace s = s.places.map DropEvent.syncDevice ++
      (List.range s.localExecScopes.length).flatMap
        (fun i =>
          [DropEvent.eraseVars i, DropEvent.dropKidScopes i] ++
            (s.preserveVars.getD i []).map (DropEvent.clearVar i)) := rfl

lemma mem_dropTrace_body_not_sync (s : ExecutorState) (e : DropEvent)
    (he : e ∈ (List.range s.localExecScopes.length).flatMap
        (fun i =>
          [DropEvent.eraseVars i, DropEvent.dropKidScopes i] ++
            (s.preserveVars.getD i []).map (DropEvent.clearVar i))) :
    e.isSync = false := by
  rcases List.mem_flatMap.1 he with ⟨i, _, hei⟩
  simp only [List.mem_append, List.mem_cons, List.mem_map,
    List.not_mem_nil, or_false] at hei
  rcases hei with (rfl | rfl) | ⟨nm, _, rfl⟩ <;> rfl

lemma append_sync_before_reclaim (A B : List DropEvent)
    (hA : ∀ e ∈ A, e.isReclaim = false) (hB : ∀ e ∈ B, e.isSync = false)
    (m n : Nat) (hm : m < (A ++ B).length) (hn : n < (A ++ B).length)
    (hsync : ((A ++ B).get ⟨m, hm⟩).isSync = true)
    (hrec : ((A ++ B).get ⟨n, hn⟩).isReclaim = true) : m < n := by
  rw [List.get_eq_getElem] at hsync hrec
  have hmA : m < A.length := by
    by_contra hge
    push_neg at hge
    rw [List.getElem_append_right hge] at hsync
    rw [hB _ (List.getElem_mem _)] at hsync
    simp at hsync
  have hnB : A.length ≤ n := by
    by_contra hlt
    push_neg at hlt
    rw [List.getElem_append_left hlt] at hrec
    rw [hA _ (List.getElem_mem _)] at hrec
    simp at hrec
  omega

/-- C5: during reclamation, the wait-for-idle synchronization of every
device place in use appears in the trace, and every synchronization event
occurs strictly before every erasure/clear event: no transient storage is
erased or cleared before all device synchronizations. -/
theorem sync_completes_before_erasure (s : ExecutorState) :
    (∀ p ∈ s.places, DropEvent.syncDevice p ∈ dropTrace s) ∧
    (∀ (m n : Nat) (hm : m < (dropTrace s).length)
      (hn : n < (dropTrace s).length),
      ((dropTrace s).get ⟨m, hm⟩).isSync = true →
      ((dropTrace s).get ⟨n, hn⟩).isReclaim = true →
      m < n) := by
  constructor
  · intro p hp
    rw [dropTrace_eq]
    exact List.mem_append_left _ (List.mem_map_of_mem _ hp)
  · intro m n hm hn hsync hrec
    refine append_sync_before_reclaim (s.places.map DropEvent.syncDevice)
      ((List.range s.localExecScopes.length).flatMap
        (fun i =>
          [DropEvent.eraseVars i, DropEvent.dropKidScopes i] ++
            (s.preserveVars.getD i []).map (DropEvent.clearVar i)))
      ?_ (mem_dropTrace_body_not_sync s) m n hm hn hsync hrec
    intro e he
    rcases List.mem_map.1 he with ⟨p, _, rfl⟩
    rfl

/-- C5 witness: the ordering instantiated at the sample state: the first
sync event precedes the first erase event. -/
theorem sync_completes_before_erasure_witness :
    DropEvent.syncDevice 0 ∈ dropTrace sampleState ∧ (0 : Nat) < 2 :=
  ⟨(sync_completes_before_erasure sampleState).1 0 (by decide),
   (sync_completes_before_erasure sampleState).2 0 2 (by decide) (by decide)
     (by decide) (by decide)⟩

lemma lookup_clearFilter_not_mem (pv : List String) (n : String)
    (h : n ∉ pv) (l : List (String × VarContent)) :
    ((l.filter (fun p => pv.contains p.1)).map
      (fun p => if pv.contains p.1 then (p.1, VarContent.uninit) else p)).lookup
        n = none := by
  induction l with
  | nil => rfl
  | cons hd tl ih =>
      by_cases hc : pv.contains hd.1
      · have hmem : hd.1 ∈ pv := by simpa using hc
        have hne : (n == hd.1) = false := by
          have : n ≠ hd.1 := fun he => h (he ▸ hmem)
          simpa using this
        simp only [List.filter_cons, hc, if_true, List.map_cons, if_pos hc,
          List.lookup_cons, hne]
        exact ih
      · simp only [List.filter_cons, hc, if_false, Bool.false_eq_true]
        exact ih

lemma lookup_clearFilter_mem (pv : List String) (n : String)
    (hmem : n ∈ pv) (l : List (String × VarContent))
    (hsome : (l.lookup n).isSome) :
    ((l.filter (fun p => pv.contains p.1)).map
      (fun p => if pv.contains p.1 then (p.1, VarContent.uninit) else p)).lookup
        n = some VarContent.uninit := by
  induction l with
  | nil => simp [List.lookup] at hsome
  | cons hd tl ih =>
      obtain ⟨k, v⟩ := hd
      by_cases heq : (n == k) = true
      · have h1 : k = n := ((beq_iff_eq).1 heq).symm
        have hc : pv.contains k = true := by
          rw [h1]
          simpa using hmem
        simp only [List.filter_cons, hc, if_true, List.map_cons, if_pos hc,
          List.lookup_cons, heq]
      · have heq' : (n == k) = false := by
          simpa using heq
        have hsome' : (tl.lookup n).isSome := by
          rw [List.lookup_cons, heq'] at hsome
          exact hsome
        by_cases hc : pv.contains k = true
        · simp only [List.filter_cons, hc, if_true, List.map_cons, if_pos hc,
            List.lookup_cons, heq']
          exact ih hsome'
        · simp only [List.filter_cons, hc, if_false, Bool.false_eq_true]
          exact ih hsome'

lemma dropWorkerScope_findVar (sc : Scope) (pv : List String) (n : String) :
    (dropWorkerScope sc pv).findVar n =
      ((sc.varsOf.filter (fun p => pv.contains p.1)).map
        (fun p => if pv.contains p.1 then (p.1, VarContent.uninit) else p)).lookup
          n := by
  cases sc
  rfl

lemma getD_zipWith_drop (a : List Scope) (b : List (List String)) (i : Nat)
    (hi : i < a.length) (hlen : b.length = a.length) :
    (List.zipWith dropWorkerScope a b).getD i (Scope.mk [] []) =
      dropWorkerScope (a.getD i (Scope.mk [] [])) (b.getD i []) := by
  have hib : i < b.length := by omega
  have hi2 : i < (List.zipWith dropWorkerScope a b).length := by
    simp [List.length_zipWith]
    omega
  rw [List.getD_eq_getElem _ _ hi2, List.getD_eq_getElem _ _ hi,
    List.getD_eq_getElem _ _ hib]
  exact List.getElem_zipWith

lemma runMany_preserveVars : ∀ (rs : List Bool) (s : ExecutorState),
    (runMany s rs).preserveVars = s.preserveVars := by
  intro rs
  induction rs with
  | nil => intro s; rfl
  | cons b rest ih =>
      intro s
      rw [runMany_cons, ih, stepState_preserveVars]

/-- C3: after the Reclaimer runs, for a worker whose preserved variables
were present in its transient context, every non-preserved variable is
absent from that context, every preserved variable is still present with
empty (uninitialized) contents, and the preserved-set membership is left
unchanged by the Reclaimer and by every `Run` call — it is fixed at
construction across all reclamation cycles. -/
theorem reclaimer_transient_scope_state (s : ExecutorState) (i : Nat)
    (hi : i < s.localExecScopes.length)
    (hlen : s.preserveVars.length = s.localExecScopes.length)
    (hpres : ∀ nm ∈ s.preserveVars.getD i [],
      (((s.localExecScopes.getD i (Scope.mk [] [])).findVar nm).isSome)) :
    (∀ nm, nm ∉ s.preserveVars.getD i [] →
      ((dropLocalExeScopes s).localExecScopes.getD i
        (Scope.mk [] [])).findVar nm = none) ∧
    (∀ nm ∈ s.preserveVars.getD i [],
      ((dropLocalExeScopes s).localExecScopes.getD i
        (Scope.mk [] [])).findVar nm = some VarContent.uninit) ∧
    (dropLocalExeScopes s).preserveVars = s.preserveVars ∧
    (∀ (ε α : Type) (r : Except ε α),
      (run s r).2.preserveVars = s.preserveVars) ∧
    (∀ rs : List Bool, (runMany s rs).preserveVars = s.preserveVars) := by
  have hscopes : (dropLocalExeScopes s).localExecScopes.getD i
      (Scope.mk [] []) =
      dropWorkerScope (s.localExecScopes.getD i (Scope.mk [] []))
        (s.preserveVars.getD i []) := by
    show (List.zipWith dropWorkerScope s.localExecScopes
        s.preserveVars).getD i (Scope.mk [] []) = _
    exact getD_zipWith_drop _ _ i hi hlen
  refine ⟨?_, ?_, rfl, ?_, ?_⟩
  · intro nm hnm
    rw [hscopes, dropWorkerScope_findVar]
    exact lookup_clearFilter_not_mem _ _ hnm _
  · intro nm hnm
    rw [hscopes, dropWorkerScope_findVar]
    exact lookup_clearFilter_mem _ _ hnm _ (hpres nm hnm)
  · intro ε α r
    rw [run_snd_eq_stepState, stepState_preserveVars]
  · intro rs
    exact runMany_preserveVars rs s

/-- C3 witness: at the sample state, after reclamation the non-preserved
`u` is gone, the preserved `t` is present and empty, and the preserved set
is unchanged. -/
theorem reclaimer_transient_scope_state_witness :
    ((dropLocalExeScopes sampleState).localExecScopes.getD 0
      (Scope.mk [] [])).findVar "u" = none ∧
    ((dropLocalExeScopes sampleState).localExecScopes.getD 0
      (Scope.mk [] [])).findVar "t" = some VarContent.uninit ∧
    (dropLocalExeScopes sampleState).preserveVars =
      sampleState.preserveVars :=
  ⟨(reclaimer_transient_scope_state sampleState 0 (by decide) (by decide)
      (by decide)).1 "u" (by decide),
   (reclaimer_transient_scope_state sampleState 0 (by decide) (by decide)
      (by decide)).2.1 "t" (by decide),
   (reclaimer_transient_scope_state sampleState 0 (by decide) (by decide)
      (by decide)).2.2.1⟩

lemma sum_map_allocPtrSize (sz : Nat → Nat) :
    ∀ m : List (Option Nat),
      (m.map (allocPtrSize sz)).sum = ((m.filterMap id).map sz).sum := by
  intro m
  induction m with
  | nil => rfl
  | cons a t ih =>
      cases a <;> simp [allocPtrSize, List.filterMap_cons, ih]

lemma nodup_filterMap_id {l : List (Option Nat)} (h : l.Nodup) :
    (l.filterMap id).Nodup := by
  refine List.Nodup.filterMap ?_ h
  intro a a' b hb hb'
  simp only [id] at hb hb'
  rw [hb, hb']

lemma toFinset_filterMap_dedup (L : List (Option Nat)) :
    (L.dedup.filterMap id).toFinset = (L.filterMap id).toFinset := by
  ext a
  simp [List.mem_filterMap]

/-- C6: `GetScopeVarMemorySize` returns the sum of the sizes of the
distinct non-null allocations reachable from the scope's variables and its
descendant scopes' variables (each physical allocation counted once even
when aliased by several variables), an uninitialized variable contributes
zero, and adding a variable aliasing an already-counted allocation leaves
the total unchanged.  (As a pure function of the scope it cannot mutate
it.) -/
theorem memory_size_deduplicates (sz : Nat → Nat) (s : Scope) :
    GetScopeVarMemorySize sz s = (scopeAllocIds s).sum sz ∧
    (∀ (n : String) (vars : List (String × VarContent)) (kids : List Scope),
      GetScopeVarMemorySize sz (Scope.mk ((n, VarContent.uninit) :: vars) kids)
        = GetScopeVarMemorySize sz (Scope.mk vars kids)) ∧
    (∀ (n : String) (a : Nat) (vars : List (String × VarContent))
      (kids : List Scope),
      some a ∈ collectScopeAllocs (Scope.mk vars kids) →
      GetScopeVarMemorySize sz
          (Scope.mk ((n, VarContent.lod (some a)) :: vars) kids) =
        GetScopeVarMemorySize sz (Scope.mk vars kids)) := by
  refine ⟨?_, ?_, ?_⟩
  · unfold GetScopeVarMemorySize scopeAllocIds
    rw [sum_map_allocPtrSize, ← toFinset_filterMap_dedup,
      List.sum_toFinset sz (nodup_filterMap_id (List.nodup_dedup _))]
  · intro n vars kids
    rfl
  · intro n a vars kids hmem
    unfold GetScopeVarMemorySize
    have hcol : collectScopeAllocs
        (Scope.mk ((n, VarContent.lod (some a)) :: vars) kids) =
        some a :: collectScopeAllocs (Scope.mk vars kids) := rfl
    rw [hcol, List.dedup_cons_of_mem hmem]

/-- C6 witness: two variables aliasing allocation 5 (size 12) are counted
once, an uninitialized variable and a null holder contribute zero. -/
theorem memory_size_deduplicates_witness :
    GetScopeVarMemorySize (fun a => if a = 5 then 12 else 7)
      (Scope.mk [("x", VarContent.lod (some 5)),
        ("y", VarContent.selectedRows (some 5)),
        ("z", VarContent.uninit), ("q", VarContent.lod none)] []) =
      (scopeAllocIds
        (Scope.mk [("x", VarContent.lod (some 5)),
          ("y", VarContent.selectedRows (some 5)),
          ("z", VarContent.uninit), ("q", VarContent.lod none)] [])).sum
        (fun a => if a = 5 then 12 else 7) ∧
    GetScopeVarMemorySize (fun a => if a = 5 then 12 else 7)
      (Scope.mk [("x", VarContent.lod (some 5)),
        ("y", VarContent.selectedRows (some 5)),
        ("z", VarContent.uninit), ("q", VarContent.lod none)] []) = 12 :=
  ⟨(memory_size_deduplicates (fun a => if a = 5 then 12 else 7)
      (Scope.mk [("x", VarContent.lod (some 5)),
        ("y", VarContent.selectedRows (some 5)),
        ("z", VarContent.uninit), ("q", VarContent.lod none)] [])).1,
   by decide⟩

lemma lookup_append_none {β : Type} (l1 l2 : List (String × β)) (n : String)
    (h : l1.lookup n = none) : (l1 ++ l2).lookup n = l2.lookup n := by
  induction l1 with
  | nil => rfl
  | cons hd tl ih =>
      obtain ⟨k, v⟩ := hd
      rw [List.cons_append, List.lookup_cons] at *
      cases hnk : (n == k) with
      | true => rw [hnk] at h; simp at h
      | false => simp only [hnk] at h ⊢; exact ih h

lemma lookup_append_some {β : Type} (l1 l2 : List (String × β)) (n : String)
    (v : β) (h : l1.lookup n = some v) : (l1 ++ l2).lookup n = some v := by
  induction l1 with
  | nil => simp [List.lookup] at h
  | cons hd tl ih =>
      obtain ⟨k, w⟩ := hd
      rw [List.cons_append, List.lookup_cons] at *
      cases hnk : (n == k) with
      | true => simp only [hnk] at h ⊢; exact h
      | false => simp only [hnk] at h ⊢; exact ih h

lemma lookup_map_overwrite (n : String) (c : VarContent) :
    ∀ l : List (String × VarContent),
      (l.map (fun p => if p.1 = n then (p.1, c) else p)).lookup n =
        (l.lookup n).map (fun _ => c) := by
  intro l
  induction l with
  | nil => rfl
  | cons hd tl ih =>
      obtain ⟨k, v⟩ := hd
      by_cases hk : k = n
      · subst hk
        simp [List.lookup_cons]
      · have hnk : (n == k) = false := by
          simpa using fun he => hk he.symm
        simp only [List.map_cons, if_neg hk, List.lookup_cons, hnk]
        exact ih

lemma lookup_map_frame (n m : String) (c : VarContent) (hm : m ≠ n) :
    ∀ l : List (String × VarContent),
      (l.map (fun p => if p.1 = n then (p.1, c) else p)).lookup m =
        l.lookup m := by
  intro l
  induction l with
  | nil => rfl
  | cons hd tl ih =>
      obtain ⟨k, v⟩ := hd
      by_cases hk : k = n
      · subst hk
        have hmk : (m == k) = false := by simpa using hm
        simp [List.lookup_cons, hmk, ih]
      · simp only [List.map_cons, if_neg hk, List.lookup_cons]
        cases hmk : (m == k) with
        | true => rfl
        | false => exact ih

lemma varGetMutableLod_creates (sc : Scope) (n : String)
    (h : sc.findVar n = none) :
    (sc.varGetMutableLod n).findVar n = some (VarContent.lod none) := by
  simp only [Scope.varGetMutableLod, h]
  show (sc.varsOf ++ [(n, VarContent.lod none)]).lookup n = _
  rw [lookup_append_none _ _ _ h, List.lookup_cons, beq_self_eq_true]

lemma varGetMutableLod_uninit (sc : Scope) (n : String)
    (h : sc.findVar n = some VarContent.uninit) :
    (sc.varGetMutableLod n).findVar n = some (VarContent.lod none) := by
  simp only [Scope.varGetMutableLod, h]
  show (sc.varsOf.map
    (fun p => if p.1 = n then (p.1, VarContent.lod none) else p)).lookup n = _
  rw [lookup_map_overwrite]
  show (sc.findVar n).map _ = _
  rw [h]
  rfl

lemma varGetMutableLod_typed (sc : Scope) (n : String) (c : VarContent)
    (h : sc.findVar n = some c) (hc : c ≠ VarContent.uninit) :
    sc.varGetMutableLod n = sc := by
  cases c <;> simp only [Scope.varGetMutableLod, h] <;> first
    | rfl
    | exact absurd rfl hc

lemma varGetMutableLod_isSome (sc : Scope) (n : String) :
    ((sc.varGetMutableLod n).findVar n).isSome := by
  cases hv : sc.findVar n with
  | none => rw [varGetMutableLod_creates sc n hv]; rfl
  | some c =>
      by_cases hc : c = VarContent.uninit
      · subst hc
        rw [varGetMutableLod_uninit sc n hv]
        rfl
      · rw [varGetMutableLod_typed sc n c hv hc, hv]
        rfl

lemma varGetMutableLod_frame (sc : Scope) (n m : String) (hm : m ≠ n) :
    (sc.varGetMutableLod n).findVar m = sc.findVar m := by
  cases hv : sc.findVar n with
  | none =>
      simp only [Scope.varGetMutableLod, hv]
      show (sc.varsOf ++ [(n, VarContent.lod none)]).lookup m = _
      cases hm2 : sc.varsOf.lookup m with
      | none =>
          rw [lookup_append_none _ _ _ hm2, List.lookup_cons]
          have : (m == n) = false := by simpa using hm
          simp only [this]
          exact hm2.symm
      | some v =>
          have hfv : sc.findVar m = some v := hm2
          rw [hfv]
          exact lookup_append_some _ _ _ _ hm2
  | some c =>
      by_cases hc : c = VarContent.uninit
      · subst hc
        simp only [Scope.varGetMutableLod, hv]
        show (sc.varsOf.map
          (fun p => if p.1 = n then (p.1, VarContent.lod none) else p)).lookup
            m = _
        exact lookup_map_frame n m _ hm _
      · rw [varGetMutableLod_typed sc n c hv hc]

lemma createFusedVars_keeps_isSome :
    ∀ (fused : List String) (sc : Scope) (m : String),
      (sc.findVar m).isSome → ((createFusedVars sc fused).findVar m).isSome := by
  intro fused
  induction fused with
  | nil => intro sc m h; exact h
  | cons f rest ih =>
      intro sc m h
      show ((createFusedVars (sc.varGetMutableLod f) rest).findVar m).isSome
      apply ih
      by_cases hm : m = f
      · subst hm
        exact varGetMutableLod_isSome sc m
      · rw [varGetMutableLod_frame sc f m hm]
        exact h

lemma createFusedVars_keeps_lodNone :
    ∀ (fused : List String) (sc : Scope) (m : String),
      sc.findVar m = some (VarContent.lod none) →
      (createFusedVars sc fused).findVar m = some (VarContent.lod none) := by
  intro fused
  induction fused with
  | nil => intro sc m h; exact h
  | cons f rest ih =>
      intro sc m h
      show (createFusedVars (sc.varGetMutableLod f) rest).findVar m = _
      apply ih
      by_cases hm : m = f
      · subst hm
        rw [varGetMutableLod_typed sc m (VarContent.lod none) h (by simp)]
        exact h
      · rw [varGetMutableLod_frame sc f m hm]
        exact h

lemma createFusedVars_mem_isSome :
    ∀ (fused : List String) (sc : Scope) (nm : String), nm ∈ fused →
      ((createFusedVars sc fused).findVar nm).isSome := by
  intro fused
  induction fused with
  | nil => intro sc nm h; cases h
  | cons f rest ih =>
      intro sc nm h
      show ((createFusedVars (sc.varGetMutableLod f) rest).findVar nm).isSome
      rcases List.mem_cons.1 h with rfl | hrest
      · exact createFusedVars_keeps_isSome rest _ nm
          (varGetMutableLod_isSome sc nm)
      · exact ih _ nm hrest

lemma createFusedVars_creates :
    ∀ (fused : List String) (sc : Scope) (nm : String), nm ∈ fused →
      sc.findVar nm = none →
      (createFusedVars sc fused).findVar nm = some (VarContent.lod none) := by
  intro fused
  induction fused with
  | nil => intro sc nm h; cases h
  | cons f rest ih =>
      intro sc nm h habs
      show (createFusedVars (sc.varGetMutableLod f) rest).findVar nm = _
      rcases List.mem_cons.1 h with rfl | hrest
      · exact createFusedVars_keeps_lodNone rest _ nm
          (varGetMutableLod_creates sc nm habs)
      · by_cases hm : nm = f
        · subst hm
          exact createFusedVars_keeps_lodNone rest _ nm
            (varGetMutableLod_creates sc nm habs)
        · exact ih _ nm hrest (by rw [varGetMutableLod_frame sc f nm hm]; exact habs)

lemma filterMap_ite_range (i op : Nat) :
    ∀ W, i < W →
      (List.range W).filterMap
        (fun j => if j = i then some op else none) = [op] := by
  intro W
  induction W with
  | zero => intro h; omega
  | succ W ih =>
      intro h
      rw [List.range_succ, List.filterMap_append]
      by_cases hiW : i < W
      · rw [ih hiW]
        have hne : ¬(W = i) := by omega
        simp [hne]
      · have hiw : i = W := by omega
        subst hiw
        have h1 : (List.range i).filterMap
            (fun j => if j = i then some op else none) = [] := by
          rw [List.filterMap_eq_nil_iff]
          intro a ha
          rw [List.mem_range] at ha
          rw [if_neg (by omega)]
        rw [h1]
        simp

lemma filterMap_workerOpOf_ops (i W : Nat) (hi : i < W) :
    ∀ ops : List Nat,
      (ops.flatMap (fun op => (List.range W).map
        (fun j => InitEvent.runOp j op))).filterMap (workerOpOf i) = ops := by
  intro ops
  induction ops with
  | nil => rfl
  | cons op rest ih =>
      rw [List.flatMap_cons, List.filterMap_append, ih]
      have h1 : ((List.range W).map
          (fun j => InitEvent.runOp j op)).filterMap (workerOpOf i) = [op] := by
        rw [List.filterMap_map]
        exact filterMap_ite_range i op W hi
      rw [h1]
      rfl

lemma filterMap_workerOpOf_pds (i W : Nat) (hi : i < W) :
    ∀ pds : List ProgramDesc,
      (pds.flatMap (fun pd => pd.block0Ops.flatMap
        (fun op => (List.range W).map
          (fun j => InitEvent.runOp j op)))).filterMap (workerOpOf i) =
        pds.flatMap ProgramDesc.block0Ops := by
  intro pds
  induction pds with
  | nil => rfl
  | cons pd rest ih =>
      rw [List.flatMap_cons, List.filterMap_append, ih, List.flatMap_cons]
      congr 1
      exact filterMap_workerOpOf_ops i W hi pd.block0Ops

lemma filterMap_workerOpOf_create (i W : Nat) (fused : List String) :
    ((List.range W).flatMap
      (fun k => fused.map
        (fun n => InitEvent.createFused k n))).filterMap (workerOpOf i) =
      [] := by
  rw [List.filterMap_eq_nil_iff]
  intro e he
  rcases List.mem_flatMap.1 he with ⟨k, _, hek⟩
  rcases List.mem_map.1 hek with ⟨nm, _, rfl⟩
  rfl

/-- C8: when the dataflow program declares fused-initialization
sub-programs, `InitVariables` creates each declared fused-variable slot in
every worker's transient context (dense-typed when it was absent) and the
event trace makes every worker execute exactly the list of operators of
every sub-program's primary block (once each, in order); when no
sub-programs are declared, the fused-initialization trace is empty. -/
theorem fused_initialization (s : ExecutorState) (i : Nat)
    (hi : i < s.localExecScopes.length)
    (hlen : s.tmpVarInfos.length = s.localExecScopes.length) :
    (s.graph.programDescs = none → initVariablesFusedTrace s = []) ∧
    (∀ pds, s.graph.programDescs = some pds →
      (∀ nm ∈ s.graph.fusedVars,
        (((initVariablesScopes s).getD i (Scope.mk [] [])).findVar
          nm).isSome) ∧
      (∀ nm ∈ s.graph.fusedVars,
        ((List.zipWith initTmpVars s.localExecScopes s.tmpVarInfos).getD i
          (Scope.mk [] [])).findVar nm = none →
        ((initVariablesScopes s).getD i (Scope.mk [] [])).findVar nm =
          some (VarContent.lod none)) ∧
      (initVariablesFusedTrace s).filterMap (workerOpOf i) =
        pds.flatMap ProgramDesc.block0Ops) := by
  constructor
  · intro h
    unfold initVariablesFusedTrace
    rw [h]
  · intro pds h
    have hlen1 : (List.zipWith initTmpVars s.localExecScopes
        s.tmpVarInfos).length = s.localExecScopes.length := by
      rw [List.length_zipWith, hlen, Nat.min_self]
    have hi1 : i < (List.zipWith initTmpVars s.localExecScopes
        s.tmpVarInfos).length := by omega
    have hscope : (initVariablesScopes s).getD i (Scope.mk [] []) =
        createFusedVars
          ((List.zipWith initTmpVars s.localExecScopes s.tmpVarInfos).getD i
            (Scope.mk [] [])) s.graph.fusedVars := by
      unfold initVariablesScopes
      rw [h]
      have hi2 : i < ((List.zipWith initTmpVars s.localExecScopes
          s.tmpVarInfos).map
            (fun sc => createFusedVars sc s.graph.fusedVars)).length := by
        rw [List.length_map]
        omega
      rw [List.getD_eq_getElem _ _ hi2, List.getD_eq_getElem _ _ hi1,
        List.getElem_map]
    refine ⟨?_, ?_, ?_⟩
    · intro nm hnm
      rw [hscope]
      exact createFusedVars_mem_isSome _ _ nm hnm
    · intro nm hnm habs
      rw [hscope]
      exact createFusedVars_creates _ _ nm hnm habs
    · unfold initVariablesFusedTrace
      rw [h, List.filterMap_append, filterMap_workerOpOf_create,
        List.nil_append]
      exact filterMap_workerOpOf_pds i _ hi pds

/-- C8 witness: at the sample state (one sub-program with primary block
`[7, 8]`, fused variable `f`), worker 0 ends with `f` created dense-typed
and executes exactly `[7, 8]`. -/
theorem fused_initialization_witness :
    ((initVariablesScopes sampleState).getD 0 (Scope.mk [] [])).findVar "f" =
      some (VarContent.lod none) ∧
    (initVariablesFusedTrace sampleState).filterMap (workerOpOf 0) =
      [7, 8] :=
  ⟨((fused_initialization sampleState 0 (by decide) (by decide)).2
      [⟨[[7, 8]]⟩] rfl).2.1 "f" (by decide) (by decide),
   ((fused_initialization sampleState 0 (by decide) (by decide)).2
      [⟨[[7, 8]]⟩] rfl).2.2⟩

lemma insertVar_findVar_self (sc : Scope) (n : String) (c : VarContent)
    (h : sc.findVar n = none) : (sc.insertVar n c).findVar n = some c := by
  show (sc.varsOf ++ [(n, c)]).lookup n = some c
  rw [lookup_append_none _ _ _ h, List.lookup_cons, beq_self_eq_true]

lemma insertVar_frame (sc : Scope) (n m : String) (c : VarContent)
    (hm : m ≠ n) : (sc.insertVar n c).findVar m = sc.findVar m := by
  show (sc.varsOf ++ [(n, c)]).lookup m = _
  cases hm2 : sc.varsOf.lookup m with
  | none =>
      rw [lookup_append_none _ _ _ hm2, List.lookup_cons]
      have hbeq : (m == n) = false := by simpa using hm
      simp only [hbeq]
      exact hm2.symm
  | some v =>
      have hfv : sc.findVar m = some v := hm2
      rw [hfv]
      exact lookup_append_some _ _ _ _ hm2

lemma ensureVar_isSome (sc : Scope) (n : String) :
    ((sc.ensureVar n).findVar n).isSome := by
  unfold Scope.ensureVar
  cases hv : sc.findVar n with
  | some v =>
      show ((sc.findVar n).isSome)
      rw [hv]
      rfl
  | none =>
      show ((sc.insertVar n VarContent.uninit).findVar n).isSome
      rw [insertVar_findVar_self sc n _ hv]
      rfl

lemma ensureVar_frame (sc : Scope) (n m : String) (hm : m ≠ n) :
    (sc.ensureVar n).findVar m = sc.findVar m := by
  unfold Scope.ensureVar
  cases hv : sc.findVar n with
  | some v => rfl
  | none =>
      show (sc.insertVar n VarContent.uninit).findVar m = _
      exact insertVar_frame sc n m _ hm

lemma classifyStep_frame (w : WorkerPrep) (info : VariableInfo) (n : String)
    (hn : info.name ≠ n) :
    (classifyStep w info).scope.findVar n = w.scope.findVar n ∧
    (classifyStep w info).localScope.findVar n = w.localScope.findVar n ∧
    (n ∈ (classifyStep w info).preserve ↔ n ∈ w.preserve) ∧
    (∀ t, ((n, t) ∈ (classifyStep w info).tmpInfos ↔
      (n, t) ∈ w.tmpInfos)) := by
  unfold classifyStep
  by_cases hp : info.persistable
  · rw [if_pos hp]
    cases hv : w.scope.findVar info.name with
    | some v => exact ⟨rfl, rfl, Iff.rfl, fun t => Iff.rfl⟩
    | none =>
        refine ⟨?_, rfl, Iff.rfl, fun t => Iff.rfl⟩
        exact insertVar_frame _ _ _ _ (fun he => hn he.symm)
  · rw [if_neg hp]
    refine ⟨rfl, ?_, ?_, ?_⟩
    · exact ensureVar_frame _ _ _ (fun he => hn he.symm)
    · by_cases hc : w.preserve.contains info.name
      · rw [if_pos hc]
      · rw [if_neg hc]
        simp only [List.mem_append, List.mem_singleton]
        constructor
        · rintro (h | h)
          · exact h
          · exact absurd h.symm hn
        · intro h
          exact Or.inl h
    · intro t
      simp only [List.mem_append, List.mem_singleton]
      constructor
      · rintro (h | h)
        · exact h
        · exact absurd (congrArg Prod.fst h).symm hn
      · intro h
        exact Or.inl h

lemma classifyStep_effect (w : WorkerPrep) (info : VariableInfo) :
    (info.persistable = true →
      ((∀ v, w.scope.findVar info.name = some v →
        (classifyStep w info).scope.findVar info.name = some v) ∧
       (w.scope.findVar info.name = none →
        (classifyStep w info).scope.findVar info.name =
          some (emptyOfType info.type)) ∧
       (classifyStep w info).localScope = w.localScope ∧
       (classifyStep w info).preserve = w.preserve ∧
       (classifyStep w info).tmpInfos = w.tmpInfos)) ∧
    (info.persistable = false →
      (((classifyStep w info).localScope.findVar info.name).isSome ∧
       info.name ∈ (classifyStep w info).preserve ∧
       (info.name, info.type) ∈ (classifyStep w info).tmpInfos ∧
       (classifyStep w info).scope = w.scope)) := by
  constructor
  · intro hp
    unfold classifyStep
    rw [if_pos hp]
    cases hv : w.scope.findVar info.name with
    | some v =>
        exact ⟨fun u hu => hv.trans hu, fun habs => Option.noConfusion habs,
          rfl, rfl, rfl⟩
    | none =>
        refine ⟨fun u hu => Option.noConfusion hu, fun _ => ?_, rfl,
          rfl, rfl⟩
        exact insertVar_findVar_self _ _ _ hv
  · intro hp
    unfold classifyStep
    rw [if_neg (by rw [hp]; exact Bool.false_ne_true)]
    refine ⟨ensureVar_isSome _ _, ?_, ?_, rfl⟩
    · by_cases hc : w.preserve.contains info.name
      · rw [if_pos hc]
        simpa using hc
      · rw [if_neg hc]
        simp
    · simp

lemma fold_frame : ∀ (rest : List VariableInfo) (w : WorkerPrep) (n : String),
    n ∉ rest.map (fun info => info.name) →
    (rest.foldl classifyStep w).scope.findVar n = w.scope.findVar n ∧
    (rest.foldl classifyStep w).localScope.findVar n =
      w.localScope.findVar n ∧
    (n ∈ (rest.foldl classifyStep w).preserve ↔ n ∈ w.preserve) ∧
    (∀ t, ((n, t) ∈ (rest.foldl classifyStep w).tmpInfos ↔
      (n, t) ∈ w.tmpInfos)) := by
  intro rest
  induction rest with
  | nil => intro w n _; exact ⟨rfl, rfl, Iff.rfl, fun t => Iff.rfl⟩
  | cons i tl ih =>
      intro w n h
      simp only [List.map_cons, List.mem_cons, not_or] at h
      obtain ⟨hni, htl⟩ := h
      have hstep := classifyStep_frame w i n (fun he => hni he.symm)
      have hrec := ih (classifyStep w i) n htl
      rw [List.foldl_cons]
      exact ⟨hrec.1.trans hstep.1, hrec.2.1.trans hstep.2.1,
        hrec.2.2.1.trans hstep.2.2.1,
        fun t => (hrec.2.2.2 t).trans (hstep.2.2.2 t)⟩

lemma prepare_fold_spec : ∀ (infos : List VariableInfo) (w : WorkerPrep),
    (infos.map (fun info => info.name)).Nodup →
    ∀ info ∈ infos,
      (info.persistable = true →
        ((∀ v, w.scope.findVar info.name = some v →
            (infos.foldl classifyStep w).scope.findVar info.name = some v) ∧
         (w.scope.findVar info.name = none →
            (infos.foldl classifyStep w).scope.findVar info.name =
              some (emptyOfType info.type)) ∧
         (infos.foldl classifyStep w).localScope.findVar info.name =
           w.localScope.findVar info.name ∧
         (info.name ∈ (infos.foldl classifyStep w).preserve ↔
           info.name ∈ w.preserve) ∧
         (∀ t, ((info.name, t) ∈ (infos.foldl classifyStep w).tmpInfos ↔
           (info.name, t) ∈ w.tmpInfos)))) ∧
      (info.persistable = false →
        (((infos.foldl classifyStep w).localScope.findVar
            info.name).isSome ∧
         info.name ∈ (infos.foldl classifyStep w).preserve ∧
         (info.name, info.type) ∈ (infos.foldl classifyStep w).tmpInfos ∧
         (infos.foldl classifyStep w).scope.findVar info.name =
           w.scope.findVar info.name)) := by
  intro infos
  induction infos with
  | nil => intro w _ info hinfo; cases hinfo
  | cons i tl ih =>
      intro w hnodup info hinfo
      rw [List.map_cons, List.nodup_cons] at hnodup
      obtain ⟨hnotin, hnd⟩ := hnodup
      rw [List.foldl_cons]
      rcases List.mem_cons.1 hinfo with rfl | htl
      · have hframe := fold_frame tl (classifyStep w info) info.name hnotin
        have heff := classifyStep_effect w info
        constructor
        · intro hp
          obtain ⟨h1, h2, h3, h4, h5⟩ := heff.1 hp
          refine ⟨?_, ?_, ?_, ?_, ?_⟩
          · intro v hv
            rw [hframe.1]
            exact h1 v hv
          · intro hv
            rw [hframe.1]
            exact h2 hv
          · rw [hframe.2.1, h3]
          · rw [hframe.2.2.1, h4]
          · intro t
            rw [hframe.2.2.2 t, h5]
        · intro hp
          obtain ⟨h1, h2, h3, h4⟩ := heff.2 hp
          refine ⟨?_, ?_, ?_, ?_⟩
          · rw [hframe.2.1]
            exact h1
          · rw [hframe.2.2.1]
            exact h2
          · rw [hframe.2.2.2 info.type]
            exact h3
          · rw [hframe.1, h4]
      · have hne : i.name ≠ info.name := by
          intro he
          apply hnotin
          rw [he]
          exact List.mem_map_of_mem (fun x => x.name) htl
        have hstep := classifyStep_frame w i info.name hne
        have hrec := ih (classifyStep w i) hnd info htl
        constructor
        · intro hp
          obtain ⟨h1, h2, h3, h4, h5⟩ := hrec.1 hp
          refine ⟨?_, ?_, ?_, ?_, ?_⟩
          · intro v hv
            exact h1 v (hstep.1.trans hv)
          · intro hv
            exact h2 (hstep.1.trans hv)
          · rw [h3, hstep.2.1]
          · rw [h4, hstep.2.2.1]
          · intro t
            rw [h5 t, hstep.2.2.2 t]
        · intro hp
          obtain ⟨h1, h2, h3, h4⟩ := hrec.2 hp
          exact ⟨h1, h2, h3, h4.trans hstep.1⟩

lemma getD_map_zipWith_prepare {γ : Type} (f : WorkerPrep → γ) (d : γ)
    (infos : List VariableInfo) (a b : List Scope) (i : Nat)
    (hi : i < a.length) (hlen : b.length = a.length) :
    ((List.zipWith (fun sc lsc => prepareWorker infos sc lsc) a b).map
      f).getD i d =
      f (prepareWorker infos (a.getD i (Scope.mk [] []))
        (b.getD i (Scope.mk [] []))) := by
  have hz : (List.zipWith (fun sc lsc => prepareWorker infos sc lsc)
      a b).length = a.length := by
    rw [List.length_zipWith, hlen, Nat.min_self]
  have hib : i < b.length := by omega
  have h1 : i < ((List.zipWith (fun sc lsc => prepareWorker infos sc lsc)
      a b).map f).length := by
    rw [List.length_map, hz]
    omega
  rw [List.getD_eq_getElem _ _ h1, List.getElem_map, List.getElem_zipWith,
    List.getD_eq_getElem _ _ hi, List.getD_eq_getElem _ _ hib]

/-- C4: the Variable Classifier puts each declared variable in exactly one
place per worker: a persistable variable already present in the worker's
persistent context is kept as-is (idempotent) and not placed in the
transient context, preserved set or records; a persistable absent one is
created type-initialized in the persistent context; a non-persistable one
is created in the transient context, added to the preserved set and
recorded with its type, leaving the persistent context untouched at that
name.  The per-worker results are exactly what `PrepareLocalExeScopes`
stores for worker `i`. -/
theorem variable_classifier_places_each_var (s : ExecutorState) (i : Nat)
    (hi : i < s.localScopes.length)
    (hlen : s.localExecScopes.length = s.localScopes.length)
    (hnodup : (s.varInfos.map (fun info => info.name)).Nodup)
    (info : VariableInfo) (hinfo : info ∈ s.varInfos) :
    ((prepareLocalExeScopes s).preserveVars.getD i [] =
      (prepareWorker s.varInfos (s.localScopes.getD i (Scope.mk [] []))
        (s.localExecScopes.getD i (Scope.mk [] []))).preserve) ∧
    ((prepareLocalExeScopes s).tmpVarInfos.getD i [] =
      (prepareWorker s.varInfos (s.localScopes.getD i (Scope.mk [] []))
        (s.localExecScopes.getD i (Scope.mk [] []))).tmpInfos) ∧
    ((prepareLocalExeScopes s).localScopes.getD i (Scope.mk [] []) =
      (prepareWorker s.varInfos (s.localScopes.getD i (Scope.mk [] []))
        (s.localExecScopes.getD i (Scope.mk [] []))).scope) ∧
    ((prepareLocalExeScopes s).localExecScopes.getD i (Scope.mk [] []) =
      (prepareWorker s.varInfos (s.localScopes.getD i (Scope.mk [] []))
        (s.localExecScopes.getD i (Scope.mk [] []))).localScope) ∧
    (info.persistable = true →
      ((∀ v, (s.localScopes.getD i (Scope.mk [] [])).findVar info.name =
          some v →
        (prepareWorker s.varInfos (s.localScopes.getD i (Scope.mk [] []))
          (s.localExecScopes.getD i (Scope.mk [] []))).scope.findVar
            info.name = some v) ∧
       ((s.localScopes.getD i (Scope.mk [] [])).findVar info.name = none →
        (prepareWorker s.varInfos (s.localScopes.getD i (Scope.mk [] []))
          (s.localExecScopes.getD i (Scope.mk [] []))).scope.findVar
            info.name = some (emptyOfType info.type)) ∧
       (prepareWorker s.varInfos (s.localScopes.getD i (Scope.mk [] []))
          (s.localExecScopes.getD i (Scope.mk [] []))).localScope.findVar
            info.name =
         (s.localExecScopes.getD i (Scope.mk [] [])).findVar info.name ∧
       info.name ∉
         (prepareWorker s.varInfos (s.localScopes.getD i (Scope.mk [] []))
           (s.localExecScopes.getD i (Scope.mk [] []))).preserve ∧
       (∀ t, (info.name, t) ∉
         (prepareWorker s.varInfos (s.localScopes.getD i (Scope.mk [] []))
           (s.localExecScopes.getD i (Scope.mk [] []))).tmpInfos))) ∧
    (info.persistable = false →
      (((prepareWorker s.varInfos (s.localScopes.getD i (Scope.mk [] []))
          (s.localExecScopes.getD i (Scope.mk [] []))).localScope.findVar
            info.name).isSome ∧
       info.name ∈
         (prepareWorker s.varInfos (s.localScopes.getD i (Scope.mk [] []))
           (s.localExecScopes.getD i (Scope.mk [] []))).preserve ∧
       (info.name, info.type) ∈
         (prepareWorker s.varInfos (s.localScopes.getD i (Scope.mk [] []))
           (s.localExecScopes.getD i (Scope.mk [] []))).tmpInfos ∧
       (prepareWorker s.varInfos (s.localScopes.getD i (Scope.mk [] []))
          (s.localExecScopes.getD i (Scope.mk [] []))).scope.findVar
            info.name =
         (s.localScopes.getD i (Scope.mk [] [])).findVar info.name)) := by
  have hspec := prepare_fold_spec s.varInfos
    ⟨s.localScopes.getD i (Scope.mk [] []),
     s.localExecScopes.getD i (Scope.mk [] []), [], []⟩ hnodup info hinfo
  refine ⟨?_, ?_, ?_, ?_, ?_, ?_⟩
  · show ((List.zipWith (fun sc lsc => prepareWorker s.varInfos sc lsc)
      s.localScopes s.localExecScopes).map (fun w => w.preserve)).getD i [] =
        _
    exact getD_map_zipWith_prepare _ _ _ _ _ i hi hlen
  · show ((List.zipWith (fun sc lsc => prepareWorker s.varInfos sc lsc)
      s.localScopes s.localExecScopes).map (fun w => w.tmpInfos)).getD i [] =
        _
    exact getD_map_zipWith_prepare _ _ _ _ _ i hi hlen
  · show ((List.zipWith (fun sc lsc => prepareWorker s.varInfos sc lsc)
      s.localScopes s.localExecScopes).map (fun w => w.scope)).getD i
        (Scope.mk [] []) = _
    exact getD_map_zipWith_prepare _ _ _ _ _ i hi hlen
  · show ((List.zipWith (fun sc lsc => prepareWorker s.varInfos sc lsc)
      s.localScopes s.localExecScopes).map (fun w => w.localScope)).getD i
        (Scope.mk [] []) = _
    exact getD_map_zipWith_prepare _ _ _ _ _ i hi hlen
  · intro hp
    obtain ⟨h1, h2, h3, h4, h5⟩ := hspec.1 hp
    refine ⟨h1, h2, h3, ?_, ?_⟩
    · intro hmem
      exact absurd (h4.1 hmem) (List.not_mem_nil _)
    · intro t hmem
      exact absurd ((h5 t).1 hmem) (List.not_mem_nil _)
  · intro hp
    obtain ⟨h1, h2, h3, h4⟩ := hspec.2 hp
    exact ⟨h1, h2, h3, h4⟩

/-- C4 witness: at the sample state, persistable `w` already present in
the persistent context is kept with its original content and not tracked;
non-persistable `t` is present in the transient context, preserved and
recorded with its type. -/
theorem variable_classifier_places_each_var_witness :
    (prepareWorker sampleState.varInfos
      (sampleState.localScopes.getD 0 (Scope.mk [] []))
      (sampleState.localExecScopes.getD 0 (Scope.mk [] []))).scope.findVar
        "w" = some (VarContent.lod (some 0)) ∧
    "w" ∉ (prepareWorker sampleState.varInfos
      (sampleState.localScopes.getD 0 (Scope.mk [] []))
      (sampleState.localExecScopes.getD 0 (Scope.mk [] []))).preserve ∧
    "t" ∈ (prepareWorker sampleState.varInfos
      (sampleState.localScopes.getD 0 (Scope.mk [] []))
      (sampleState.localExecScopes.getD 0 (Scope.mk [] []))).preserve ∧
    ("t", VarType.lodTensor) ∈ (prepareWorker sampleState.varInfos
      (sampleState.localScopes.getD 0 (Scope.mk [] []))
      (sampleState.localExecScopes.getD 0 (Scope.mk [] []))).tmpInfos :=
  ⟨((variable_classifier_places_each_var sampleState 0 (by decide)
      (by decide) (by decide) ⟨"w", VarType.lodTensor, true⟩
      (by decide)).2.2.2.2.1 rfl).1 (VarContent.lod (some 0)) (by decide),
   ((variable_classifier_places_each_var sampleState 0 (by decide)
      (by decide) (by decide) ⟨"w", VarType.lodTensor, true⟩
      (by decide)).2.2.2.2.1 rfl).2.2.2.1,
   ((variable_classifier_places_each_var sampleState 0 (by decide)
      (by decide) (by decide) ⟨"t", VarType.lodTensor, false⟩
      (by decide)).2.2.2.2.2 rfl).2.1,
   ((variable_classifier_places_each_var sampleState 0 (by decide)
      (by decide) (by decide) ⟨"t", VarType.lodTensor, false⟩
      (by decide)).2.2.2.2.2 rfl).2.2.1⟩
